import Mathlib

/-!
Printable-character counting server and client.

A shallow embedding of `pcc_server.c` and `pcc_client.c`.

* Bytes are naturals (a well-formed byte is below 256).
* C integers are naturals, reduced modulo `2 ^ 32` where the C object is 32 bits wide.
* The operating system is an explicit list of events: every event is the result of the
  system call the program is blocked in (`ret k`: up to `k` bytes are transferred,
  `fail errno`: the call returns `-1`), or a `SIGINT` delivered at that point.
* A connection's inbound stream is the list of bytes the peer sends before it stops; a read
  that finds nothing to deliver returns `0`.
* `perror` writes to the standard error stream, which is not modelled; `printf` appends to
  `stdout`, `exit` records the exit status.
-/

namespace PCC

/-- A byte of a stream, as a natural number (well-formed when below 256). -/
abbrev Byte := Nat

/-- The constant `const int BUFF_SIZE = 1000 * 1000;`. -/
def BUFF_SIZE : Nat := 1000 * 1000

/-- The Linux value of `ETIMEDOUT` (`errno.h`). -/
def ETIMEDOUT : Nat := 110

/-- The Linux value of `ECONNRESET` (`errno.h`). -/
def ECONNRESET : Nat := 104

/-- The Linux value of `EPIPE` (`errno.h`). -/
def EPIPE : Nat := 32

/-- The bytes, in memory order, of the 32-bit object `htonl(v)`: the big-endian encoding of
`v` as an unsigned 32-bit integer. -/
def htonl (v : Nat) : List Byte :=
  [v / 2 ^ 24 % 256, v / 2 ^ 16 % 256, v / 2 ^ 8 % 256, v % 256]

/-- The value `ntohl(x)` of the 32-bit object `x` whose bytes in memory order are `bs`. -/
def ntohl (bs : List Byte) : Nat :=
  bs.getD 0 0 * 2 ^ 24 + bs.getD 1 0 * 2 ^ 16 + bs.getD 2 0 * 2 ^ 8 + bs.getD 3 0

/-- The conversion `%hu` of `printf`: the argument is converted to `unsigned short`
(16 bits) and printed in decimal. -/
def fmt_hu (v : Nat) : String := toString (v % 2 ^ 16)

/-- The conversion `%c` of `printf` for a character code. -/
def fmt_c (i : Nat) : String := String.singleton (Char.ofNat i)

/-- What the operating system does at a point where the program waits for it. -/
inductive Ev where
  /-- The signal `SIGINT` is delivered. -/
  | sigint
  /-- The pending `read`/`write` transfers up to `k` bytes (never more than requested,
  never more than the stream holds). -/
  | ret (k : Nat)
  /-- The pending `read`/`write` returns `-1` with this `errno`. -/
  | fail (errno : Nat)
  deriving DecidableEq, Repr

/-! ## Server: global state, shutdown and signal handler -/

/-- The global variables of `pcc_server.c`, the standard output and the exit status. -/
structure Globals where
  /-- The global `int PROCESSING_CLIENT`. -/
  PROCESSING_CLIENT : Nat
  /-- The global `int TERMINATE`. -/
  TERMINATE : Nat
  /-- The global `unsigned int total_pcc[127]`. -/
  total_pcc : Nat → Nat
  /-- The output of each `printf` call so far, oldest first. -/
  stdout : List String
  /-- The exit status, once the process has ended. -/
  exited : Option Nat

/-- The output of `printf("char '%c' : %hu times\n", i, total_pcc[i])`. -/
def report_line (i v : Nat) : String :=
  "char '" ++ fmt_c i ++ "' : " ++ fmt_hu v ++ " times\n"

/-- The lines printed by the loop `for (i = 32; i < 127; i++)` of `shutdown_server`. -/
def report (total_pcc : Nat → Nat) : List String :=
  (List.range' 32 95).map (fun i => report_line i (total_pcc i))

/-- The function `void shutdown_server()`: print the table, then `exit(0)`. -/
def shutdown_server (g : Globals) : Globals :=
  { g with stdout := g.stdout ++ report g.total_pcc, exited := some 0 }

/-- The function `void server_handler(int sig)`. -/
def server_handler (g : Globals) : Globals :=
  if g.PROCESSING_CLIENT = 0 then shutdown_server g else { g with TERMINATE := 1 }

/-- The function `void handle_client(int client_socket_fd)`: close the socket, reset the marker, and
shut down if `TERMINATE` is non-zero. -/
def handle_client (g : Globals) : Globals :=
  let g1 := { g with PROCESSING_CLIENT := 0 }
  if g1.TERMINATE ≠ 0 then shutdown_server g1 else g1

/-! ## Server: one iteration of the accept loop -/

/-- How a connection ended. -/
inductive ConnectionOutcome where
  | Completed
  | Aborted
  deriving DecidableEq, Repr

/-- Where the body of the accept loop stands. -/
inductive Phase where
  /-- In the loop that reads the 4-byte file size. -/
  | header
  /-- In the loop that reads the file content. -/
  | payload
  /-- In the loop that writes the 4-byte count. -/
  | sending
  /-- The socket is closed and the marker reset. -/
  | closed (o : ConnectionOutcome)
  /-- The process ended inside the loop body before the socket was closed. -/
  | dead
  deriving DecidableEq, Repr

/-- The state of the server while it serves one connection: the globals, the locals of
`main`, and the two directions of the connection's stream. -/
structure Conn where
  g : Globals
  phase : Phase
  /-- The bytes of the inbound stream that have not been read yet. -/
  sock_in : List Byte
  /-- The bytes written to the connection so far. -/
  sock_out : List Byte
  /-- The bytes stored so far in the object `file_size_network`. -/
  file_size_network : List Byte
  file_size_host : Nat
  total_bytes_read : Nat
  /-- The local `unsigned int client_pcc[127]`. -/
  client_pcc : Nat → Nat
  /-- The local `total_printable_chars_host`, as the 32-bit pattern `htonl` receives. -/
  total_printable_chars_host : Nat
  total_bytes_sent : Nat

/-- The test `errno == ETIMEDOUT || errno == ECONNRESET || errno == EPIPE`. -/
def is_disconnect (errno : Nat) : Bool :=
  errno == ETIMEDOUT || errno == ECONNRESET || errno == EPIPE

/-- The state after `accept` returned a connection whose inbound stream is `inbuf`:
`PROCESSING_CLIENT = 1; cont_to_next_clnt = 0; total_bytes_read = 0;`. The other locals are
not initialised yet (they are written before they are read). -/
def accepted (g : Globals) (inbuf : List Byte) : Conn :=
  { g := { g with PROCESSING_CLIENT := 1 }
    phase := Phase.header
    sock_in := inbuf
    sock_out := []
    file_size_network := []
    file_size_host := 0
    total_bytes_read := 0
    client_pcc := fun _ => 0
    total_printable_chars_host := 0
    total_bytes_sent := 0 }

/-- The path `cont_to_next_clnt = 1; break; ... handle_client(new_sock_fd); continue;`. -/
def abort (s : Conn) : Conn :=
  { s with g := handle_client s.g, phase := Phase.closed ConnectionOutcome.Aborted }

/-- The path `perror(...); exit(1);`. -/
def die (s : Conn) : Conn :=
  { s with g := { s.g with exited := some 1 }, phase := Phase.dead }

/-- The body of the `if` of the counting loop for one byte: `client_pcc[b]++`. -/
def bump (pcc : Nat → Nat) (b : Nat) : Nat → Nat :=
  fun i => if i = b then (pcc i + 1) % 2 ^ 32 else pcc i

/-- The loop `for (i = 0; i < bytes_read; i++)` over a received chunk, on the pair
`(client_pcc, total_printable_chars_host)`. -/
def count_chunk : List Byte → (Nat → Nat) × Nat → (Nat → Nat) × Nat
  | [], acc => acc
  | b :: bs, acc =>
    if 32 ≤ b ∧ b ≤ 126 then count_chunk bs (bump acc.1 b, (acc.2 + 1) % 2 ^ 32)
    else count_chunk bs acc

/-- The loop `for (i = 32; i < 127; i++) total_pcc[i] += client_pcc[i];`. -/
def accumulate (total client : Nat → Nat) : Nat → Nat :=
  fun i => if 32 ≤ i ∧ i < 127 then (total i + client i) % 2 ^ 32 else total i

/-- After the send loop ended with `cont_to_next_clnt == 0`: fold the counts, close the
socket, reset the marker, and shut down if `TERMINATE == 1`. -/
def finish (s : Conn) : Conn :=
  let g1 : Globals :=
    { s.g with total_pcc := accumulate s.g.total_pcc s.client_pcc, PROCESSING_CLIENT := 0 }
  { s with
    g := if g1.TERMINATE = 1 then shutdown_server g1 else g1
    phase := Phase.closed ConnectionOutcome.Completed }

/-- After the payload loop ended with `cont_to_next_clnt == 0`: `total_bytes_sent = 0` and
the send loop is entered (its test `0 < 4` holds). -/
def start_sending (s : Conn) : Conn :=
  { s with total_bytes_sent := 0, phase := Phase.sending }

/-- After the header loop ended with `cont_to_next_clnt == 0`: decode the size, reset the
per-connection counters and test the payload loop's condition for the first time. -/
def start_payload (s : Conn) : Conn :=
  let s1 : Conn :=
    { s with
      file_size_host := ntohl s.file_size_network
      total_bytes_read := 0
      total_printable_chars_host := 0
      client_pcc := fun _ => 0 }
  if s1.total_bytes_read < s1.file_size_host then { s1 with phase := Phase.payload }
  else start_sending s1

/-- One event while the server is in the body of the accept loop. -/
def serve_step (s : Conn) (e : Ev) : Conn :=
  match s.phase, e with
  | Phase.closed _, _ => s
  | Phase.dead, _ => s
  | _, Ev.sigint =>
    let g1 := server_handler s.g
    if g1.exited.isSome then { s with g := g1, phase := Phase.dead } else { s with g := g1 }
  | Phase.header, Ev.ret k =>
    -- read(new_sock_fd, (char *)(&file_size_network) + total_bytes_read, 4 - total_bytes_read)
    let chunk := s.sock_in.take (min k (4 - s.total_bytes_read))
    if chunk.length = 0 then abort s
    else
      let s1 : Conn :=
        { s with
          sock_in := s.sock_in.drop chunk.length
          file_size_network := s.file_size_network ++ chunk
          total_bytes_read := s.total_bytes_read + chunk.length }
      if s1.total_bytes_read < 4 then s1 else start_payload s1
  | Phase.payload, Ev.ret k =>
    -- read(new_sock_fd, buffer, BUFF_SIZE)
    let chunk := s.sock_in.take (min k BUFF_SIZE)
    if chunk.length = 0 then abort s
    else
      let c := count_chunk chunk (s.client_pcc, s.total_printable_chars_host)
      let s1 : Conn :=
        { s with
          sock_in := s.sock_in.drop chunk.length
          total_bytes_read := s.total_bytes_read + chunk.length
          client_pcc := c.1
          total_printable_chars_host := c.2 }
      if s1.total_bytes_read < s1.file_size_host then s1 else start_sending s1
  | Phase.sending, Ev.ret k =>
    -- write(new_sock_fd, (char *)(&total_printable_chars_network) + total_bytes_sent,
    --       4 - total_bytes_sent)
    let n := min k (4 - s.total_bytes_sent)
    let s1 : Conn :=
      { s with
        sock_out :=
          s.sock_out ++ ((htonl s.total_printable_chars_host).drop s.total_bytes_sent).take n
        total_bytes_sent := s.total_bytes_sent + n }
    if s1.total_bytes_sent < 4 then s1 else finish s1
  | _, Ev.fail errno => if is_disconnect errno then abort s else die s

/-- The server from a state inside the loop body, through a list of events. -/
def serve_from (s : Conn) (evs : List Ev) : Conn := evs.foldl serve_step s

/-- One iteration of the accept loop: a connection whose inbound stream is `inbuf` is
accepted and served through the events `evs`. -/
def serve (g : Globals) (inbuf : List Byte) (evs : List Ev) : Conn :=
  serve_from (accepted g inbuf) evs

/-- What happens while the server is blocked in `accept`. -/
inductive AcceptEv where
  /-- The signal `SIGINT` is delivered. -/
  | sigint
  /-- The call `accept` fails. -/
  | fail
  /-- The call `accept` returns a connection with inbound stream `inbuf`, served through `evs`. -/
  | conn (inbuf : List Byte) (evs : List Ev)

/-- The loop `while (1)` of `main`, through a list of events at `accept`. An iteration that
does not reach the end of the loop body leaves the server inside it. -/
def main_loop : Globals → List AcceptEv → Globals
  | g, [] => g
  | g, AcceptEv.sigint :: rest =>
    let g1 := server_handler g
    if g1.exited.isSome then g1 else main_loop g1 rest
  | g, AcceptEv.fail :: _ => { g with exited := some 1 }
  | g, AcceptEv.conn inbuf evs :: rest =>
    let s := serve g inbuf evs
    match s.phase with
    | Phase.closed _ => if s.g.exited.isSome then s.g else main_loop s.g rest
    | _ => s.g

/-- The globals when `main` enters its loop: zero-initialised, nothing printed. -/
def initial : Globals :=
  { PROCESSING_CLIENT := 0, TERMINATE := 0, total_pcc := fun _ => 0, stdout := [], exited := none }

/-- The number of bytes of `bs` with a value in `[32, 126]`. -/
def printable_count (bs : List Byte) : Nat :=
  (bs.filter (fun b => decide (32 ≤ b ∧ b ≤ 126))).length

/-! ## Client: from the established connection to `exit` -/

/-- The result of a `read`/`write` of the client on its socket. -/
inductive Res where
  /-- The call transfers up to `k` bytes (never more than requested, never more than the
  stream holds). -/
  | ret (k : Nat)
  /-- The call returns `-1` with this `errno`. -/
  | fail (errno : Nat)
  deriving DecidableEq, Repr

/-- Where `main` of the client stands. -/
inductive CPhase where
  /-- In the loop that writes the 4-byte file size. -/
  | send_size
  /-- In the inner loop `while (bytes_read > 0)` that writes a chunk of the file. -/
  | send_file
  /-- In the loop that reads the 4-byte count. -/
  | recv_count
  /-- The process has ended. -/
  | ended
  /-- The outer file loop repeats a `read` that returns `0` with an unchanged
  `total_bytes_sent`: it never leaves. -/
  | spin
  /-- A `write` was issued with a negative `bytes_read - bytes_sent` as its `size_t` count:
  it addresses memory past the buffer, outside this model. -/
  | fault
  deriving DecidableEq, Repr

/-- The state of the client after `connect` succeeded. -/
structure Client where
  phase : CPhase
  /-- The bytes of the file not yet read through `fd`. -/
  file : List Byte
  /-- The local `unsigned int file_size`. -/
  file_size : Nat
  /-- The bytes of the inbound stream that have not been read yet. -/
  sock_in : List Byte
  /-- The bytes written to the socket so far. -/
  sock_out : List Byte
  /-- The bytes stored in `file_buffer` by the last `read(fd, ...)`; the rest of the buffer
  is zero and is never addressed while `bytes_read - bytes_sent` is not negative. -/
  file_buffer : List Byte
  bytes_read : Nat
  bytes_sent : Nat
  total_bytes_sent : Nat
  bytes_received : Nat
  /-- The bytes stored so far in the object `printable_chars_cnt_network`. -/
  printable_chars_cnt_network : List Byte
  /-- The output of each `printf` call so far. -/
  stdout : List String
  /-- The exit status, once the process has ended. -/
  exited : Option Nat

/-- The state after `connect`: `total_bytes_sent = 0` and `file_size` is
`(unsigned int) file_info.st_size`. The server's replies are `inbuf`. -/
def connected (F : List Byte) (inbuf : List Byte) : Client :=
  { phase := CPhase.send_size
    file := F
    file_size := F.length % 2 ^ 32
    sock_in := inbuf
    sock_out := []
    file_buffer := []
    bytes_read := 0
    bytes_sent := 0
    total_bytes_sent := 0
    bytes_received := 0
    printable_chars_cnt_network := []
    stdout := []
    exited := none }

/-- The path `perror(...); exit(1);` of the client. -/
def client_die (s : Client) : Client :=
  { s with exited := some 1, phase := CPhase.ended }

/-- The test of the outer loop `while (total_bytes_sent < file_size)`, reached with the
inner loop finished: either the next chunk is read from the file (the `read` of a regular
file returns what is left, up to `BUFF_SIZE`), or the file is closed and the receive loop
is entered with `bytes_received = 0`. -/
def file_loop_head (s : Client) : Client :=
  if s.total_bytes_sent < s.file_size then
    let chunk := s.file.take BUFF_SIZE
    let s1 : Client :=
      { s with
        file := s.file.drop chunk.length
        file_buffer := chunk
        bytes_read := chunk.length
        bytes_sent := 0 }
    if 0 < s1.bytes_read then { s1 with phase := CPhase.send_file }
    else { s1 with phase := CPhase.spin }
  else { s with bytes_received := 0, phase := CPhase.recv_count }

/-- The output of `printf("# of printable characters: %hu\n", printable_chars_cnt)`. -/
def count_line (v : Nat) : String :=
  "# of printable characters: " ++ fmt_hu v ++ "\n"

/-- After the receive loop: decode, print, `exit(0)`. -/
def client_report (s : Client) : Client :=
  { s with
    stdout := s.stdout ++ [count_line (ntohl s.printable_chars_cnt_network)]
    exited := some 0
    phase := CPhase.ended }

/-- One result of a system call of the client on its socket. -/
def client_step (s : Client) (r : Res) : Client :=
  match s.phase, r with
  | CPhase.ended, _ => s
  | CPhase.spin, _ => s
  | CPhase.fault, _ => s
  | _, Res.fail _ => client_die s
  | CPhase.send_size, Res.ret k =>
    -- write(sock_fd, (char *)(&file_size_network) + total_bytes_sent, 4 - total_bytes_sent)
    let n := min k (4 - s.total_bytes_sent)
    let s1 : Client :=
      { s with
        sock_out := s.sock_out ++ ((htonl s.file_size).drop s.total_bytes_sent).take n
        total_bytes_sent := s.total_bytes_sent + n }
    if s1.total_bytes_sent < 4 then s1 else file_loop_head { s1 with total_bytes_sent := 0 }
  | CPhase.send_file, Res.ret k =>
    -- bytes_sent = write(sock_fd, file_buffer + bytes_sent, bytes_read - bytes_sent)
    if s.bytes_read < s.bytes_sent then { s with phase := CPhase.fault }
    else
      let n := min k (s.bytes_read - s.bytes_sent)
      let s1 : Client :=
        { s with
          sock_out := s.sock_out ++ (s.file_buffer.drop s.bytes_sent).take n
          bytes_sent := n
          total_bytes_sent := s.total_bytes_sent + n
          bytes_read := s.bytes_read - n }
      if 0 < s1.bytes_read then s1 else file_loop_head s1
  | CPhase.recv_count, Res.ret k =>
    -- read(sock_fd, (char *)(&printable_chars_cnt_network) + bytes_received,
    --      bytes_to_receive - bytes_received)
    let chunk := s.sock_in.take (min k (4 - s.bytes_received))
    let s1 : Client :=
      { s with
        sock_in := s.sock_in.drop chunk.length
        printable_chars_cnt_network := s.printable_chars_cnt_network ++ chunk
        bytes_received := s.bytes_received + chunk.length }
    if s1.bytes_received < 4 then s1 else client_report s1

/-- The client after `connect`, through a list of system call results. -/
def client (F : List Byte) (inbuf : List Byte) (rs : List Res) : Client :=
  rs.foldl client_step (connected F inbuf)

/-! ## Invariants used in the proofs -/

/-- While a request is deferred, on a server whose output was `out0` and whose table was
`t0` when the interrupt arrived: in the loop body the flag is set, the marker is `1`, the
process runs, nothing has been printed and the table is untouched; the only end of the
process before the socket is closed is the path `perror(...); exit(1);`, with nothing
printed; once the socket is closed the report has been printed after `out0` and the process
has ended with status `0`. -/
def deferred (out0 : List String) (t0 : Nat → Nat) (s : Conn) : Prop :=
  match s.phase with
  | Phase.closed _ => s.g.exited = some 0 ∧ s.g.stdout = out0 ++ report s.g.total_pcc
  | Phase.dead => s.g.exited = some 1 ∧ s.g.stdout = out0 ∧ s.g.total_pcc = t0
  | _ =>
    s.g.TERMINATE = 1 ∧ s.g.PROCESSING_CLIENT = 1 ∧ s.g.exited = none ∧ s.g.stdout = out0 ∧
      s.g.total_pcc = t0

/-- The event is not a failure of a system call outside the disconnect conditions, the
only events on which the loop body takes the path `perror(...); exit(1);`. -/
def benign (e : Ev) : Prop :=
  ∀ errno, e = Ev.fail errno → is_disconnect errno = true

/-- The counters after the counting loop ran over a whole payload from zero. -/
def payload_counts (B : List Byte) : (Nat → Nat) × Nat :=
  count_chunk B (fun _ => 0, 0)

/-- The states of a connection whose inbound stream is the big-endian length of `B`
followed by `B`, on a server whose table was `t0` when the connection was accepted. -/
def framed (t0 : Nat → Nat) (B : List Byte) (s : Conn) : Prop :=
  match s.phase with
  | Phase.header =>
    s.total_bytes_read < 4 ∧
    s.file_size_network = (htonl B.length).take s.total_bytes_read ∧
    s.sock_in = (htonl B.length).drop s.total_bytes_read ++ B ∧
    s.sock_out = [] ∧ s.g.total_pcc = t0
  | Phase.payload =>
    s.file_size_host = B.length ∧ s.total_bytes_read < B.length ∧
    s.sock_in = B.drop s.total_bytes_read ∧
    (s.client_pcc, s.total_printable_chars_host) = payload_counts (B.take s.total_bytes_read) ∧
    s.sock_out = [] ∧ s.g.total_pcc = t0
  | Phase.sending =>
    s.total_bytes_sent < 4 ∧
    s.sock_out = (htonl (payload_counts B).2).take s.total_bytes_sent ∧
    (s.client_pcc, s.total_printable_chars_host) = payload_counts B ∧ s.g.total_pcc = t0
  | Phase.closed ConnectionOutcome.Completed =>
    s.sock_out = htonl (payload_counts B).2 ∧
    s.g.total_pcc = accumulate t0 (payload_counts B).1
  | _ => True

/-- An upper bound on the number of transfers the connection still needs. -/
def remaining (B : List Byte) (s : Conn) : Nat :=
  match s.phase with
  | Phase.header => (4 - s.total_bytes_read) + B.length + 4
  | Phase.payload => (B.length - s.total_bytes_read) + 4
  | Phase.sending => 4 - s.total_bytes_sent
  | _ => 0

/-- The connection has neither been aborted nor ended the process. -/
def alive (s : Conn) : Prop :=
  s.phase ≠ Phase.closed ConnectionOutcome.Aborted ∧ s.phase ≠ Phase.dead

/-- What a transfer of up to `k` bytes achieves from `s`: the invariant is kept and, when
`k` is positive, the connection stays alive and gets closer to its end. -/
def advances (t0 : Nat → Nat) (B : List Byte) (s s1 : Conn) (k : Nat) : Prop :=
  framed t0 B s1 ∧
    (1 ≤ k → alive s1 ∧ (s1.phase = Phase.closed ConnectionOutcome.Completed ∨
      remaining B s1 < remaining B s))

/-! ## Basic facts about the step function -/

theorem serve_step_closed (s : Conn) (e : Ev) (o : ConnectionOutcome)
    (h : s.phase = Phase.closed o) : serve_step s e = s := by
  obtain ⟨g, phase, sin, sout, fsn, fsh, tbr, pcc, tot, tbs⟩ := s
  subst h
  cases e <;> rfl

theorem serve_step_dead (s : Conn) (e : Ev) (h : s.phase = Phase.dead) :
    serve_step s e = s := by
  obtain ⟨g, phase, sin, sout, fsn, fsh, tbr, pcc, tot, tbs⟩ := s
  subst h
  cases e <;> rfl

theorem serve_from_closed (s : Conn) (evs : List Ev) (o : ConnectionOutcome)
    (h : s.phase = Phase.closed o) : serve_from s evs = s := by
  induction evs with
  | nil => rfl
  | cons e es ih =>
    show serve_from (serve_step s e) es = s
    rw [serve_step_closed s e o h]
    exact ih

theorem serve_from_cons (s : Conn) (e : Ev) (es : List Ev) :
    serve_from s (e :: es) = serve_from (serve_step s e) es := rfl

theorem serve_from_append (s : Conn) (xs ys : List Ev) :
    serve_from s (xs ++ ys) = serve_from (serve_from s xs) ys := by
  simp [serve_from, List.foldl_append]

theorem shutdown_server_total_pcc (g : Globals) :
    (shutdown_server g).total_pcc = g.total_pcc := rfl

theorem server_handler_total_pcc (g : Globals) :
    (server_handler g).total_pcc = g.total_pcc := by
  unfold server_handler
  split <;> rfl

theorem handle_client_total_pcc (g : Globals) :
    (handle_client g).total_pcc = g.total_pcc := by
  unfold handle_client
  simp only
  split <;> rfl

/-- A step either completes the connection or leaves the global table as it was. -/
theorem serve_step_total_pcc (s : Conn) (e : Ev) :
    (serve_step s e).phase = Phase.closed ConnectionOutcome.Completed ∨
      (serve_step s e).g.total_pcc = s.g.total_pcc := by
  obtain ⟨g, phase, sin, sout, fsn, fsh, tbr, pcc, tot, tbs⟩ := s
  cases phase <;> cases e <;>
    simp only [serve_step, abort, die, finish, start_payload, start_sending, or_true] <;>
    (repeat (split <;> try simp [server_handler_total_pcc, handle_client_total_pcc]))

theorem serve_from_total_pcc (s : Conn) (evs : List Ev) :
    (serve_from s evs).phase = Phase.closed ConnectionOutcome.Completed ∨
      (serve_from s evs).g.total_pcc = s.g.total_pcc := by
  induction evs generalizing s with
  | nil => exact Or.inr rfl
  | cons e es ih =>
    rw [serve_from_cons]
    rcases serve_step_total_pcc s e with h | h
    · left
      rw [serve_from_closed _ es _ h]
      exact h
    · rcases ih (serve_step s e) with h2 | h2
      · exact Or.inl h2
      · exact Or.inr (h2.trans h)

/-- The disconnect conditions of every phase end the connection as `Aborted`: a failure
with `ETIMEDOUT`, `ECONNRESET` or `EPIPE` in any loop, and a `read` that returns `0`. -/
theorem disconnect_aborts (s : Conn)
    (hp : s.phase = Phase.header ∨ s.phase = Phase.payload ∨ s.phase = Phase.sending) :
    (∀ errno, is_disconnect errno = true →
      (serve_step s (Ev.fail errno)).phase = Phase.closed ConnectionOutcome.Aborted) ∧
    (s.phase ≠ Phase.sending →
      (serve_step s (Ev.ret 0)).phase = Phase.closed ConnectionOutcome.Aborted) := by
  obtain ⟨g, phase, sin, sout, fsn, fsh, tbr, pcc, tot, tbs⟩ := s
  rcases hp with h | h | h <;> simp only at h <;> subst h <;>
    refine ⟨fun errno he => ?_, fun hs => ?_⟩ <;> simp_all [serve_step, abort]

theorem deferred_step (out0 : List String) (t0 : Nat → Nat) (s : Conn) (e : Ev)
    (h : deferred out0 t0 s) : deferred out0 t0 (serve_step s e) := by
  obtain ⟨g, phase, sin, sout, fsn, fsh, tbr, pcc, tot, tbs⟩ := s
  obtain ⟨pc, tm, tp, out, ex⟩ := g
  cases phase <;> cases e <;> simp only [deferred] at h <;>
    (try obtain ⟨h1, h2, h3, h4, h5⟩ := h) <;> (try subst h1 h2 h3 h4 h5) <;>
    simp only [serve_step, abort, die, finish, start_payload, start_sending, server_handler,
      handle_client, shutdown_server] <;>
    (repeat (first | split | simp_all [deferred]))

theorem deferred_from (out0 : List String) (t0 : Nat → Nat) (s : Conn) (evs : List Ev)
    (h : deferred out0 t0 s) : deferred out0 t0 (serve_from s evs) := by
  induction evs generalizing s with
  | nil => exact h
  | cons e es ih => exact ih _ (deferred_step out0 t0 s e h)

/-- With a deferred request, an event that is not a fatal failure does not end the process
inside the loop body. -/
theorem deferred_step_not_dead (out0 : List String) (t0 : Nat → Nat) (s : Conn) (e : Ev)
    (h : deferred out0 t0 s) (hd : s.phase ≠ Phase.dead) (he : benign e) :
    (serve_step s e).phase ≠ Phase.dead := by
  obtain ⟨g, phase, sin, sout, fsn, fsh, tbr, pcc, tot, tbs⟩ := s
  obtain ⟨pc, tm, tp, out, ex⟩ := g
  cases phase <;> cases e <;> simp only [deferred] at h <;>
    (try obtain ⟨h1, h2, h3, h4, h5⟩ := h) <;> (try subst h1 h2 h3 h4 h5) <;>
    (try have hb := he _ rfl) <;>
    simp only [serve_step, abort, die, finish, start_payload, start_sending, server_handler,
      handle_client, shutdown_server] <;>
    (repeat (first | split | simp_all))

theorem deferred_from_not_dead (out0 : List String) (t0 : Nat → Nat) (s : Conn)
    (evs : List Ev) (h : deferred out0 t0 s) (hd : s.phase ≠ Phase.dead)
    (he : ∀ e ∈ evs, benign e) : (serve_from s evs).phase ≠ Phase.dead := by
  induction evs generalizing s with
  | nil => exact hd
  | cons e es ih =>
    rw [serve_from_cons]
    exact ih _ (deferred_step out0 t0 s e h)
      (deferred_step_not_dead out0 t0 s e h hd (he e (List.mem_cons_self _ _)))
      (fun x hx => he x (List.mem_cons_of_mem _ hx))

/-! ## Framing and counting -/

theorem ntohl_htonl (v : Nat) (h : v < 2 ^ 32) : ntohl (htonl v) = v := by
  simp only [ntohl, htonl, List.getD_cons_zero, List.getD_cons_succ]
  omega

theorem htonl_length (v : Nat) : (htonl v).length = 4 := rfl

theorem count_chunk_append (xs ys : List Byte) (acc : (Nat → Nat) × Nat) :
    count_chunk (xs ++ ys) acc = count_chunk ys (count_chunk xs acc) := by
  induction xs generalizing acc with
  | nil => rfl
  | cons b bs ih =>
    simp only [List.cons_append, count_chunk]
    split
    · exact ih _
    · exact ih _

theorem printable_count_le (bs : List Byte) : printable_count bs ≤ bs.length :=
  List.length_filter_le _ _

theorem printable_count_cons (b : Byte) (bs : List Byte) :
    printable_count (b :: bs) =
      if 32 ≤ b ∧ b ≤ 126 then printable_count bs + 1 else printable_count bs := by
  unfold printable_count
  by_cases hb : 32 ≤ b ∧ b ≤ 126
  · rw [List.filter_cons_of_pos (by simpa using hb), if_pos hb, List.length_cons]
  · rw [List.filter_cons_of_neg (by simpa using hb), if_neg hb]

theorem count_chunk_total (bs : List Byte) (acc : (Nat → Nat) × Nat) :
    (count_chunk bs acc).2 % 2 ^ 32 = (acc.2 + printable_count bs) % 2 ^ 32 := by
  induction bs generalizing acc with
  | nil => simp [count_chunk, printable_count]
  | cons b bs ih =>
    simp only [count_chunk, printable_count_cons]
    split
    · rw [ih]
      show ((acc.2 + 1) % 2 ^ 32 + printable_count bs) % 2 ^ 32 = _
      omega
    · rw [ih]

theorem count_chunk_total_lt (bs : List Byte) (acc : (Nat → Nat) × Nat)
    (h : acc.2 < 2 ^ 32) : (count_chunk bs acc).2 < 2 ^ 32 := by
  induction bs generalizing acc with
  | nil => exact h
  | cons b bs ih =>
    simp only [count_chunk]
    split
    · exact ih _ (Nat.mod_lt _ (by norm_num))
    · exact ih _ h

theorem count_chunk_entry (bs : List Byte) (acc : (Nat → Nat) × Nat) (c : Nat) :
    (count_chunk bs acc).1 c % 2 ^ 32 =
      (acc.1 c + if 32 ≤ c ∧ c ≤ 126 then bs.count c else 0) % 2 ^ 32 := by
  induction bs generalizing acc with
  | nil => simp [count_chunk]
  | cons b bs ih =>
    simp only [count_chunk]
    split
    · rename_i hb
      rw [ih]
      by_cases hc : c = b
      · subst hc
        simp only [bump, if_true, hb, and_self, List.count_cons_self]
        omega
      · have hne : (b == c) = false := by simpa using fun h => hc h.symm
        simp only [bump, hc, if_false, List.count_cons, hne]
        simp
    · rename_i hb
      rw [ih]
      by_cases hc : c = b
      · subst hc
        simp [hb]
      · have hne : (b == c) = false := by simpa using fun h => hc h.symm
        simp only [List.count_cons, hne]
        simp

theorem count_chunk_entry_lt (bs : List Byte) (acc : (Nat → Nat) × Nat) (c : Nat)
    (h : acc.1 c < 2 ^ 32) : (count_chunk bs acc).1 c < 2 ^ 32 := by
  induction bs generalizing acc with
  | nil => exact h
  | cons b bs ih =>
    simp only [count_chunk]
    split
    · apply ih
      simp only [bump]
      split
      · exact Nat.mod_lt _ (by norm_num)
      · exact h
    · exact ih _ h

/-- The running total of a payload shorter than `2 ^ 32` is its number of printable bytes. -/
theorem payload_counts_total (B : List Byte) (hL : B.length < 2 ^ 32) :
    (payload_counts B).2 = printable_count B := by
  have h1 := count_chunk_total B (fun _ => 0, 0)
  have h2 := count_chunk_total_lt B (fun _ => 0, 0) (by norm_num)
  have h3 := printable_count_le B
  simp only [Nat.zero_add] at h1
  unfold payload_counts
  rw [Nat.mod_eq_of_lt h2, Nat.mod_eq_of_lt (by omega)] at h1
  exact h1

/-- The per-character counter of a payload shorter than `2 ^ 32` is the number of
occurrences of that character, for the printable characters, and zero for the others. -/
theorem payload_counts_entry (B : List Byte) (hL : B.length < 2 ^ 32) (c : Nat) :
    (payload_counts B).1 c = if 32 ≤ c ∧ c ≤ 126 then B.count c else 0 := by
  have h1 := count_chunk_entry B (fun _ => 0, 0) c
  have h2 := count_chunk_entry_lt B (fun _ => 0, 0) c (by norm_num)
  have h3 : B.count c ≤ B.length := List.count_le_length _ _
  simp only [Nat.zero_add] at h1
  unfold payload_counts
  rw [Nat.mod_eq_of_lt h2] at h1
  rw [h1]
  split
  · exact Nat.mod_eq_of_lt (by omega)
  · rfl

theorem framed_header_ret (t0 : Nat → Nat) (B : List Byte) (s : Conn) (k : Nat)
    (hL : B.length < 2 ^ 32) (hp : s.phase = Phase.header) (h : framed t0 B s) :
    advances t0 B s (serve_step s (Ev.ret k)) k := by
  obtain ⟨g, phase, sin, sout, fsn, fsh, tbr, pcc, tot, tbs⟩ := s
  simp only at hp
  subst hp
  simp only [framed] at h
  obtain ⟨h1, h2, h3, h4, h5⟩ := h
  have hH := htonl_length B.length
  have hm : min k (4 - tbr) ≤ ((htonl B.length).drop tbr).length := by
    rw [List.length_drop, hH]
    exact Nat.min_le_right _ _
  have hchunk : sin.take (min k (4 - tbr))
      = ((htonl B.length).drop tbr).take (min k (4 - tbr)) := by
    rw [h3]
    exact List.take_append_of_le_length hm
  have hlen : (sin.take (min k (4 - tbr))).length = min k (4 - tbr) := by
    rw [hchunk, List.length_take]
    exact Nat.min_eq_left hm
  have hdrop : sin.drop (min k (4 - tbr)) = (htonl B.length).drop (tbr + min k (4 - tbr)) ++ B := by
    rw [h3, List.drop_append_of_le_length hm, List.drop_drop]
  have hfsn : fsn ++ sin.take (min k (4 - tbr))
      = (htonl B.length).take (tbr + min k (4 - tbr)) := by
    rw [hchunk, h2, List.take_add]
  have hmle : min k (4 - tbr) ≤ 4 - tbr := Nat.min_le_right _ _
  have hmpos : 1 ≤ k → 1 ≤ min k (4 - tbr) := fun hk => Nat.le_min.mpr ⟨hk, by omega⟩
  simp only [serve_step, hlen, hdrop, hfsn]
  generalize min k (4 - tbr) = m at *
  by_cases hm0 : m = 0
  · subst hm0
    refine ⟨by simp [abort, framed], fun hk => ?_⟩
    have := hmpos hk
    omega
  · rw [if_neg hm0]
    by_cases hlt : tbr + m < 4
    · rw [if_pos hlt]
      refine ⟨by simp [framed, hlt, h4, h5], fun _ => ⟨by simp [alive], Or.inr ?_⟩⟩
      simp only [remaining]
      omega
    · rw [if_neg hlt]
      have h4m : tbr + m = 4 := by omega
      have htake : (htonl B.length).take (tbr + m) = htonl B.length := by
        rw [h4m]
        exact List.take_of_length_le (by rw [hH])
      have hdrop4 : (htonl B.length).drop (tbr + m) = [] := by
        rw [h4m]
        exact List.drop_of_length_le (by rw [hH])
      simp only [start_payload, htake, hdrop4, ntohl_htonl _ hL, List.nil_append]
      by_cases hB : 0 < B.length
      · rw [if_pos hB]
        refine ⟨by simp [framed, hB, h4, h5, payload_counts, count_chunk],
          fun _ => ⟨by simp [alive], Or.inr ?_⟩⟩
        simp only [remaining]
        omega
      · rw [if_neg hB]
        have hnil : B = [] := List.length_eq_zero.mp (by omega)
        subst hnil
        refine ⟨by simp [start_sending, framed, h4, h5, payload_counts, count_chunk],
          fun _ => ⟨by simp [alive, start_sending], Or.inr ?_⟩⟩
        simp only [remaining, start_sending]
        omega

theorem take_length_take (l : List Byte) (n : Nat) : l.take (l.take n).length = l.take n := by
  rw [List.length_take]
  rcases Nat.le_total n l.length with h | h
  · rw [Nat.min_eq_left h]
  · rw [Nat.min_eq_right h, List.take_of_length_le h, List.take_length]

theorem drop_length_take (l : List Byte) (n : Nat) : l.drop (l.take n).length = l.drop n := by
  rw [List.length_take]
  rcases Nat.le_total n l.length with h | h
  · rw [Nat.min_eq_left h]
  · rw [Nat.min_eq_right h, List.drop_of_length_le h, List.drop_length]

theorem framed_payload_ret (t0 : Nat → Nat) (B : List Byte) (s : Conn) (k : Nat)
    (hp : s.phase = Phase.payload) (h : framed t0 B s) :
    advances t0 B s (serve_step s (Ev.ret k)) k := by
  obtain ⟨g, phase, sin, sout, fsn, fsh, tbr, pcc, tot, tbs⟩ := s
  simp only at hp
  subst hp
  simp only [framed] at h
  obtain ⟨h1, h2, h3, h4, h5, h6⟩ := h
  subst h1 h3
  have hle : ((B.drop tbr).take (min k BUFF_SIZE)).length ≤ B.length - tbr := by
    rw [List.length_take, List.length_drop]
    exact Nat.min_le_right _ _
  have hpos : 1 ≤ k → 1 ≤ ((B.drop tbr).take (min k BUFF_SIZE)).length := by
    intro hk
    rw [List.length_take, List.length_drop]
    have : 1 ≤ BUFF_SIZE := by decide
    omega
  have hcnt : count_chunk ((B.drop tbr).take (min k BUFF_SIZE)) (pcc, tot) =
      payload_counts (B.take (tbr + ((B.drop tbr).take (min k BUFF_SIZE)).length)) := by
    rw [h4, List.take_add, take_length_take]
    unfold payload_counts
    rw [count_chunk_append]
  have hdrop : (B.drop tbr).drop ((B.drop tbr).take (min k BUFF_SIZE)).length =
      B.drop (tbr + ((B.drop tbr).take (min k BUFF_SIZE)).length) := by
    rw [List.drop_drop]
  simp only [serve_step, hcnt, hdrop]
  generalize ((B.drop tbr).take (min k BUFF_SIZE)).length = m at *
  by_cases hm0 : m = 0
  · subst hm0
    refine ⟨by simp [abort, framed], fun hk => ?_⟩
    have := hpos hk
    omega
  · rw [if_neg hm0]
    by_cases hlt : tbr + m < B.length
    · rw [if_pos hlt]
      refine ⟨by simp [framed, hlt, h5, h6], fun _ => ⟨by simp [alive], Or.inr ?_⟩⟩
      simp only [remaining]
      omega
    · rw [if_neg hlt]
      have hall : B.take (tbr + m) = B := List.take_of_length_le (by omega)
      refine ⟨by simp [start_sending, framed, hall, h5, h6],
        fun _ => ⟨by simp [alive, start_sending], Or.inr ?_⟩⟩
      simp only [remaining, start_sending]
      omega

theorem framed_sending_ret (t0 : Nat → Nat) (B : List Byte) (s : Conn) (k : Nat)
    (hp : s.phase = Phase.sending) (h : framed t0 B s) :
    advances t0 B s (serve_step s (Ev.ret k)) k := by
  obtain ⟨g, phase, sin, sout, fsn, fsh, tbr, pcc, tot, tbs⟩ := s
  simp only at hp
  subst hp
  simp only [framed] at h
  obtain ⟨h1, h2, h3, h4⟩ := h
  have hpcc : pcc = (payload_counts B).1 := congrArg Prod.fst h3
  have htot : tot = (payload_counts B).2 := congrArg Prod.snd h3
  subst h2 hpcc htot
  have hmle : min k (4 - tbs) ≤ 4 - tbs := Nat.min_le_right _ _
  have hmpos : 1 ≤ k → 1 ≤ min k (4 - tbs) := fun hk => Nat.le_min.mpr ⟨hk, by omega⟩
  simp only [serve_step, ← List.take_add]
  generalize min k (4 - tbs) = n at *
  by_cases hlt : tbs + n < 4
  · rw [if_pos hlt]
    refine ⟨by simp [framed, hlt, h4], fun hk => ⟨by simp [alive], Or.inr ?_⟩⟩
    have := hmpos hk
    simp only [remaining]
    omega
  · rw [if_neg hlt]
    have hall : (htonl (payload_counts B).2).take (tbs + n) = htonl (payload_counts B).2 :=
      List.take_of_length_le (by rw [htonl_length]; omega)
    refine ⟨?_, fun _ => ⟨by simp [alive, finish], Or.inl (by simp [finish])⟩⟩
    simp only [finish, framed, hall, true_and]
    split <;> simp [shutdown_server, h4]

/-- Every step keeps the invariant of a framed connection. -/
theorem framed_step (t0 : Nat → Nat) (B : List Byte) (s : Conn) (e : Ev)
    (hL : B.length < 2 ^ 32) (h : framed t0 B s) : framed t0 B (serve_step s e) := by
  cases hp : s.phase with
  | closed o => rw [serve_step_closed s e o hp]; exact h
  | dead => rw [serve_step_dead s e hp]; exact h
  | header =>
    cases e with
    | ret k => exact (framed_header_ret t0 B s k hL hp h).1
    | sigint =>
      obtain ⟨g, phase, sin, sout, fsn, fsh, tbr, pcc, tot, tbs⟩ := s
      simp only at hp
      subst hp
      simp only [serve_step]
      split
      · simp [framed]
      · simpa [framed, server_handler_total_pcc] using h
    | fail errno =>
      obtain ⟨g, phase, sin, sout, fsn, fsh, tbr, pcc, tot, tbs⟩ := s
      simp only at hp
      subst hp
      simp only [serve_step]
      split <;> simp [framed, abort, die]
  | payload =>
    cases e with
    | ret k => exact (framed_payload_ret t0 B s k hp h).1
    | sigint =>
      obtain ⟨g, phase, sin, sout, fsn, fsh, tbr, pcc, tot, tbs⟩ := s
      simp only at hp
      subst hp
      simp only [serve_step]
      split
      · simp [framed]
      · simpa [framed, server_handler_total_pcc] using h
    | fail errno =>
      obtain ⟨g, phase, sin, sout, fsn, fsh, tbr, pcc, tot, tbs⟩ := s
      simp only at hp
      subst hp
      simp only [serve_step]
      split <;> simp [framed, abort, die]
  | sending =>
    cases e with
    | ret k => exact (framed_sending_ret t0 B s k hp h).1
    | sigint =>
      obtain ⟨g, phase, sin, sout, fsn, fsh, tbr, pcc, tot, tbs⟩ := s
      simp only at hp
      subst hp
      simp only [serve_step]
      split
      · simp [framed]
      · simpa [framed, server_handler_total_pcc] using h
    | fail errno =>
      obtain ⟨g, phase, sin, sout, fsn, fsh, tbr, pcc, tot, tbs⟩ := s
      simp only at hp
      subst hp
      simp only [serve_step]
      split <;> simp [framed, abort, die]

theorem framed_from (t0 : Nat → Nat) (B : List Byte) (s : Conn) (evs : List Ev)
    (hL : B.length < 2 ^ 32) (h : framed t0 B s) : framed t0 B (serve_from s evs) := by
  induction evs generalizing s with
  | nil => exact h
  | cons e es ih => exact ih _ (framed_step t0 B s e hL h)

theorem framed_accepted (g : Globals) (B : List Byte) :
    framed g.total_pcc B (accepted g (htonl B.length ++ B)) := by
  simp [framed, accepted]

theorem remaining_pos (t0 : Nat → Nat) (B : List Byte) (s : Conn) (h : framed t0 B s)
    (ha : alive s) (hn : remaining B s = 0) :
    s.phase = Phase.closed ConnectionOutcome.Completed := by
  obtain ⟨g, phase, sin, sout, fsn, fsh, tbr, pcc, tot, tbs⟩ := s
  cases phase with
  | header => simp only [remaining] at hn; omega
  | payload => simp only [remaining] at hn; omega
  | sending =>
    simp only [framed] at h
    simp only [remaining] at hn
    omega
  | closed o =>
    cases o with
    | Completed => rfl
    | Aborted => exact absurd rfl ha.1
  | dead => exact absurd rfl ha.2

/-- A framed connection served through positive transfers only, at least as many as it
still needs, ends as `Completed`. -/
theorem framed_completes (t0 : Nat → Nat) (B : List Byte) (ks : List Nat) (s : Conn)
    (hL : B.length < 2 ^ 32) (h : framed t0 B s) (ha : alive s)
    (hk : ∀ k ∈ ks, 1 ≤ k) (hn : remaining B s ≤ ks.length) :
    (serve_from s (ks.map Ev.ret)).phase = Phase.closed ConnectionOutcome.Completed := by
  induction ks generalizing s with
  | nil => exact remaining_pos t0 B s h ha (by simpa using hn)
  | cons k ks ih =>
    rw [List.map_cons, serve_from_cons]
    have hk1 : 1 ≤ k := hk k (List.mem_cons_self _ _)
    have hks : ∀ j ∈ ks, 1 ≤ j := fun j hj => hk j (List.mem_cons_of_mem _ hj)
    have key : advances t0 B s (serve_step s (Ev.ret k)) k := by
      cases hp : s.phase with
      | header => exact framed_header_ret t0 B s k hL hp h
      | payload => exact framed_payload_ret t0 B s k hp h
      | sending => exact framed_sending_ret t0 B s k hp h
      | closed o =>
        rw [serve_step_closed s _ o hp]
        refine ⟨h, fun _ => ⟨ha, Or.inl ?_⟩⟩
        cases o with
        | Completed => exact hp
        | Aborted => exact absurd hp ha.1
      | dead => exact absurd hp ha.2
    obtain ⟨hf, hprog⟩ := key
    obtain ⟨ha1, hdone | hlt⟩ := hprog hk1
    · rw [serve_from_closed _ _ _ hdone]
      exact hdone
    · apply ih _ hf ha1 hks
      simp only [List.length_cons] at hn
      omega

theorem printable_count_eq_zero (B : List Byte) (h : ∀ b ∈ B, b < 32 ∨ 126 < b) :
    printable_count B = 0 := by
  unfold printable_count
  rw [List.length_eq_zero, List.filter_eq_nil_iff]
  intro b hb
  have hb2 : @LT.lt Nat _ b 32 ∨ @LT.lt Nat _ 126 b := h b hb
  have hneg : ¬ (@LE.le Nat _ 32 b ∧ @LE.le Nat _ b 126) := by omega
  simpa using hneg

/-! ## The claims -/

/-- C1: a connection whose stream is the big-endian length of `B` followed by `B`, served
through any positive read and write transfers (down to one byte each) until it ends,
completes, and the four bytes written back are the big-endian encoding of the number of
bytes of `B` in `[32, 126]`; whenever such a connection completes, under any events, these
are the bytes written; the result is zero when no byte of `B` is printable (so also when `B`
is empty). -/
theorem server_result_correct (g : Globals) (B : List Byte) (ks : List Nat)
    (hL : B.length < 2 ^ 32) (hk : ∀ k ∈ ks, 1 ≤ k) (hn : B.length + 8 ≤ ks.length) :
    (serve g (htonl B.length ++ B) (ks.map Ev.ret)).phase
        = Phase.closed ConnectionOutcome.Completed ∧
      (serve g (htonl B.length ++ B) (ks.map Ev.ret)).sock_out = htonl (printable_count B) ∧
      (∀ evs : List Ev,
        (serve g (htonl B.length ++ B) evs).phase = Phase.closed ConnectionOutcome.Completed →
        (serve g (htonl B.length ++ B) evs).sock_out = htonl (printable_count B)) ∧
      ((∀ b ∈ B, b < 32 ∨ 126 < b) →
        (serve g (htonl B.length ++ B) (ks.map Ev.ret)).sock_out = [0, 0, 0, 0]) := by
  have hsafe : ∀ evs : List Ev,
      (serve g (htonl B.length ++ B) evs).phase = Phase.closed ConnectionOutcome.Completed →
      (serve g (htonl B.length ++ B) evs).sock_out = htonl (printable_count B) := by
    intro evs hc
    have hf := framed_from g.total_pcc B _ evs hL (framed_accepted g B)
    change framed g.total_pcc B (serve g (htonl B.length ++ B) evs) at hf
    simp only [framed, hc] at hf
    rw [hf.1, payload_counts_total B hL]
  have hdone : (serve g (htonl B.length ++ B) (ks.map Ev.ret)).phase
      = Phase.closed ConnectionOutcome.Completed := by
    apply framed_completes g.total_pcc B ks _ hL (framed_accepted g B)
    · simp [alive, accepted]
    · exact hk
    · simp only [remaining, accepted]
      omega
  refine ⟨hdone, hsafe _ hdone, hsafe, fun hnp => ?_⟩
  rw [hsafe _ hdone, printable_count_eq_zero B hnp]
  rfl

theorem server_result_correct_witness :
    (serve initial (htonl 3 ++ [65, 10, 66]) ((List.replicate 11 1).map Ev.ret)).sock_out
      = [0, 0, 0, 2] :=
  (server_result_correct initial [65, 10, 66] (List.replicate 11 1) (by decide) (by decide)
    (by decide)).2.1

/-- C2: when a connection ends as `Aborted`, in whatever phase and after whatever bytes,
every entry of `total_pcc` is what it was before the connection was accepted. -/
theorem aborted_connection_leaves_total_pcc (g : Globals) (inbuf : List Byte)
    (evs : List Ev)
    (h : (serve g inbuf evs).phase = Phase.closed ConnectionOutcome.Aborted) (c : Nat) :
    (serve g inbuf evs).g.total_pcc c = g.total_pcc c := by
  rcases serve_from_total_pcc (accepted g inbuf) evs with h1 | h1
  · change (serve g inbuf evs).phase = _ at h1
    rw [h] at h1
    exact absurd h1 (by decide)
  · exact congrFun h1 c

theorem aborted_connection_leaves_total_pcc_witness :
    (serve initial (htonl 3 ++ [65]) [Ev.ret 4, Ev.ret 1, Ev.ret 0]).g.total_pcc 65 = 0 :=
  aborted_connection_leaves_total_pcc initial (htonl 3 ++ [65])
    [Ev.ret 4, Ev.ret 1, Ev.ret 0] (by decide) 65

theorem completed_total_pcc (g : Globals) (B : List Byte) (evs : List Ev)
    (hL : B.length < 2 ^ 32)
    (h : (serve g (htonl B.length ++ B) evs).phase = Phase.closed ConnectionOutcome.Completed)
    (c : Nat) :
    (serve g (htonl B.length ++ B) evs).g.total_pcc c =
      if 32 ≤ c ∧ c ≤ 126 then (g.total_pcc c + B.count c) % 2 ^ 32 else g.total_pcc c := by
  have hf := framed_from g.total_pcc B _ evs hL (framed_accepted g B)
  change framed g.total_pcc B (serve g (htonl B.length ++ B) evs) at hf
  simp only [framed, h] at hf
  rw [hf.2]
  simp only [accumulate, payload_counts_entry B hL c]
  by_cases hc : 32 ≤ c ∧ c ≤ 126
  · have hc2 : 32 ≤ c ∧ c < 127 := by omega
    rw [if_pos hc, if_pos hc2, if_pos hc]
  · have hc2 : ¬ (32 ≤ c ∧ c < 127) := by omega
    rw [if_neg hc, if_neg hc2, if_neg hc]

/-- C3: when a connection with payload `B` completes, every entry `c` in `32..126` of
`total_pcc` has grown by the number of occurrences of `c` in `B`, modulo `2 ^ 32`, and the
other entries are unchanged; from the all-zero table, two completed connections with
payloads `"AAA"` and `"BBB"` leave `3` at `'A'` and at `'B'` and `0` everywhere else. -/
theorem accumulation_correct (g : Globals) (B : List Byte) (evs : List Ev)
    (hL : B.length < 2 ^ 32)
    (h : (serve g (htonl B.length ++ B) evs).phase
      = Phase.closed ConnectionOutcome.Completed) :
    (∀ c, 32 ≤ c → c ≤ 126 →
      (serve g (htonl B.length ++ B) evs).g.total_pcc c
        = (g.total_pcc c + B.count c) % 2 ^ 32) ∧
    (∀ c, ¬ (32 ≤ c ∧ c ≤ 126) →
      (serve g (htonl B.length ++ B) evs).g.total_pcc c = g.total_pcc c) ∧
    (∀ evs1 evs2 : List Ev,
      (serve initial (htonl 3 ++ [65, 65, 65]) evs1).phase
        = Phase.closed ConnectionOutcome.Completed →
      (serve initial (htonl 3 ++ [65, 65, 65]) evs1).g.exited = none →
      (serve (serve initial (htonl 3 ++ [65, 65, 65]) evs1).g (htonl 3 ++ [66, 66, 66])
        evs2).phase = Phase.closed ConnectionOutcome.Completed →
      ∀ c, (main_loop initial
          [AcceptEv.conn (htonl 3 ++ [65, 65, 65]) evs1,
            AcceptEv.conn (htonl 3 ++ [66, 66, 66]) evs2]).total_pcc c
        = if c = 65 ∨ c = 66 then 3 else 0) := by
  refine ⟨fun c h1 h2 => ?_, fun c hc => ?_, fun evs1 evs2 h1 hx h2 c => ?_⟩
  · rw [completed_total_pcc g B evs hL h c, if_pos ⟨h1, h2⟩]
  · rw [completed_total_pcc g B evs hL h c, if_neg hc]
  · have e1 := completed_total_pcc initial [65, 65, 65] evs1 (by decide) h1
    have e2 := completed_total_pcc (serve initial (htonl 3 ++ [65, 65, 65]) evs1).g
      [66, 66, 66] evs2 (by decide) h2 c
    have hloop : main_loop initial
          [AcceptEv.conn (htonl 3 ++ [65, 65, 65]) evs1,
            AcceptEv.conn (htonl 3 ++ [66, 66, 66]) evs2]
        = (serve (serve initial (htonl 3 ++ [65, 65, 65]) evs1).g (htonl 3 ++ [66, 66, 66])
            evs2).g := by
      simp only [main_loop, h1, h2, hx, Option.isSome_none, Bool.false_eq_true, if_false,
        ite_self]
    rw [hloop]
    change _ = if c = 65 ∨ c = 66 then 3 else 0
    change (serve (serve initial (htonl 3 ++ [65, 65, 65]) evs1).g (htonl 3 ++ [66, 66, 66])
      evs2).g.total_pcc c = _ at e2
    rw [e2]
    have e1c := e1 c
    change (serve initial (htonl 3 ++ [65, 65, 65]) evs1).g.total_pcc c = _ at e1c
    rw [e1c]
    simp only [initial, Nat.zero_add]
    by_cases hA : c = 65
    · subst hA
      decide
    · by_cases hB : c = 66
      · subst hB
        decide
      · have hcA : List.count c [65, 65, 65] = 0 := by
          simp [List.count_cons, hA, Ne.symm hA]
        have hcB : List.count c [66, 66, 66] = 0 := by
          simp [List.count_cons, hB, Ne.symm hB]
        rw [hcA, hcB]
        simp [hA, hB]

theorem accumulation_correct_witness :
    (serve initial (htonl 3 ++ [65, 65, 65]) [Ev.ret 2, Ev.ret 2, Ev.ret 3, Ev.ret 4]).g.total_pcc
      65 = 3 :=
  (accumulation_correct initial [65, 65, 65] [Ev.ret 2, Ev.ret 2, Ev.ret 3, Ev.ret 4]
    (by decide) (by decide)).1 65 (by decide) (by decide)

/-- C4: an interrupt delivered while the server is in the loop body with
`PROCESSING_CLIENT = 1` does not end the process and changes nothing but `TERMINATE`; at
every later point at which that connection is not closed yet, nothing has been printed,
`total_pcc` is untouched and the process has not ended with status `0`: it still runs with
the request recorded, unless a system call failed outside the disconnect conditions, in
which case it ended with status `1`; once that connection is closed, completed or aborted,
the report has been printed and the process has ended with status `0`, and the accept loop
takes no further event; an interrupt delivered at `accept` with `PROCESSING_CLIENT = 0` is
the report-and-exit sequence at once. -/
theorem deferred_shutdown (s : Conn) (post : List Ev) (rest : List AcceptEv)
    (hp : s.phase = Phase.header ∨ s.phase = Phase.payload ∨ s.phase = Phase.sending)
    (hm : s.g.PROCESSING_CLIENT = 1) (hx : s.g.exited = none) :
    (server_handler s.g = { s.g with TERMINATE := 1 } ∧
      (serve_step s Ev.sigint).g.exited = none ∧
      (serve_step s Ev.sigint).g.total_pcc = s.g.total_pcc ∧
      (serve_step s Ev.sigint).g.stdout = s.g.stdout ∧
      (serve_step s Ev.sigint).phase = s.phase) ∧
    ((∀ o, (serve_from s (Ev.sigint :: post)).phase ≠ Phase.closed o) →
      (serve_from s (Ev.sigint :: post)).g.exited ≠ some 0 ∧
      (serve_from s (Ev.sigint :: post)).g.stdout = s.g.stdout ∧
      (serve_from s (Ev.sigint :: post)).g.total_pcc = s.g.total_pcc ∧
      ((serve_from s (Ev.sigint :: post)).phase ≠ Phase.dead →
        (serve_from s (Ev.sigint :: post)).g.exited = none ∧
        (serve_from s (Ev.sigint :: post)).g.TERMINATE = 1 ∧
        (serve_from s (Ev.sigint :: post)).g.PROCESSING_CLIENT = 1) ∧
      ((serve_from s (Ev.sigint :: post)).phase = Phase.dead →
        (serve_from s (Ev.sigint :: post)).g.exited = some 1) ∧
      ((∀ e ∈ post, benign e) → (serve_from s (Ev.sigint :: post)).phase ≠ Phase.dead)) ∧
    (∀ o, (serve_from s (Ev.sigint :: post)).phase = Phase.closed o →
      (serve_from s (Ev.sigint :: post)).g.exited = some 0 ∧
      (serve_from s (Ev.sigint :: post)).g.stdout
        = s.g.stdout ++ report (serve_from s (Ev.sigint :: post)).g.total_pcc) ∧
    (∀ g inbuf pre o, serve g inbuf pre = s →
      (serve_from s (Ev.sigint :: post)).phase = Phase.closed o →
      main_loop g (AcceptEv.conn inbuf (pre ++ Ev.sigint :: post) :: rest)
        = (serve_from s (Ev.sigint :: post)).g) ∧
    (∀ g : Globals, g.PROCESSING_CLIENT = 0 →
      main_loop g (AcceptEv.sigint :: rest) = shutdown_server g ∧
      (shutdown_server g).exited = some 0 ∧
      (shutdown_server g).stdout = g.stdout ++ report g.total_pcc) := by
  have hh : server_handler s.g = { s.g with TERMINATE := 1 } := by
    unfold server_handler
    rw [if_neg (by omega)]
  have hstep : serve_step s Ev.sigint = { s with g := { s.g with TERMINATE := 1 } } := by
    obtain ⟨g, phase, sin, sout, fsn, fsh, tbr, pcc, tot, tbs⟩ := s
    simp only at hp hh hx
    rcases hp with h | h | h <;> subst h <;> simp [serve_step, hh, hx]
  have hdef : deferred s.g.stdout s.g.total_pcc (serve_step s Ev.sigint) := by
    rw [hstep]
    rcases hp with h | h | h <;> simp [deferred, h, hm, hx]
  have hnd : (serve_step s Ev.sigint).phase ≠ Phase.dead := by
    rw [hstep]
    rcases hp with h | h | h <;> simp [h]
  have hd : deferred s.g.stdout s.g.total_pcc (serve_from s (Ev.sigint :: post)) := by
    rw [serve_from_cons]
    exact deferred_from _ _ _ post hdef
  have hclosed : ∀ o, (serve_from s (Ev.sigint :: post)).phase = Phase.closed o →
      (serve_from s (Ev.sigint :: post)).g.exited = some 0 ∧
      (serve_from s (Ev.sigint :: post)).g.stdout
        = s.g.stdout ++ report (serve_from s (Ev.sigint :: post)).g.total_pcc := by
    intro o ho
    simpa only [deferred, ho] using hd
  have hopen : (∀ o, (serve_from s (Ev.sigint :: post)).phase ≠ Phase.closed o) →
      (serve_from s (Ev.sigint :: post)).g.exited ≠ some 0 ∧
      (serve_from s (Ev.sigint :: post)).g.stdout = s.g.stdout ∧
      (serve_from s (Ev.sigint :: post)).g.total_pcc = s.g.total_pcc ∧
      ((serve_from s (Ev.sigint :: post)).phase ≠ Phase.dead →
        (serve_from s (Ev.sigint :: post)).g.exited = none ∧
        (serve_from s (Ev.sigint :: post)).g.TERMINATE = 1 ∧
        (serve_from s (Ev.sigint :: post)).g.PROCESSING_CLIENT = 1) ∧
      ((serve_from s (Ev.sigint :: post)).phase = Phase.dead →
        (serve_from s (Ev.sigint :: post)).g.exited = some 1) ∧
      ((∀ e ∈ post, benign e) → (serve_from s (Ev.sigint :: post)).phase ≠ Phase.dead) := by
    intro hno
    have hlive : (∀ e ∈ post, benign e) →
        (serve_from s (Ev.sigint :: post)).phase ≠ Phase.dead := by
      intro hb
      rw [serve_from_cons]
      exact deferred_from_not_dead _ _ _ post hdef hnd hb
    generalize serve_from s (Ev.sigint :: post) = r at hd hno hlive ⊢
    cases hr : r.phase with
    | closed o => exact absurd hr (hno o)
    | dead =>
      simp only [deferred, hr] at hd
      obtain ⟨h1, h2, h3⟩ := hd
      rw [hr] at hlive
      refine ⟨by rw [h1]; decide, h2, h3, fun hc => absurd rfl hc, fun _ => h1, hlive⟩
    | header =>
      simp only [deferred, hr] at hd
      obtain ⟨h1, h2, h3, h4, h5⟩ := hd
      refine ⟨by rw [h3]; decide, h4, h5, fun _ => ⟨h3, h1, h2⟩, fun hc => ?_,
        fun _ => by decide⟩
      exact absurd hc (by decide)
    | payload =>
      simp only [deferred, hr] at hd
      obtain ⟨h1, h2, h3, h4, h5⟩ := hd
      refine ⟨by rw [h3]; decide, h4, h5, fun _ => ⟨h3, h1, h2⟩, fun hc => ?_,
        fun _ => by decide⟩
      exact absurd hc (by decide)
    | sending =>
      simp only [deferred, hr] at hd
      obtain ⟨h1, h2, h3, h4, h5⟩ := hd
      refine ⟨by rw [h3]; decide, h4, h5, fun _ => ⟨h3, h1, h2⟩, fun hc => ?_,
        fun _ => by decide⟩
      exact absurd hc (by decide)
  refine ⟨⟨hh, ?_, ?_, ?_, ?_⟩, hopen, hclosed, ?_, ?_⟩
  · rw [hstep]; exact hx
  · rw [hstep]
  · rw [hstep]
  · rw [hstep]
  · intro g inbuf pre o hs ho
    have hrun : serve g inbuf (pre ++ Ev.sigint :: post) = serve_from s (Ev.sigint :: post) := by
      rw [← hs]
      exact serve_from_append _ _ _
    simp only [main_loop, hrun, ho, (hclosed o ho).1, Option.isSome_some, if_true]
  · intro g hg
    have hs : server_handler g = shutdown_server g := by
      unfold server_handler
      rw [if_pos hg]
    refine ⟨?_, rfl, rfl⟩
    simp only [main_loop, hs]
    rfl

theorem deferred_shutdown_witness :
    (serve_from (accepted initial (htonl 5 ++ [65, 66]))
        (Ev.sigint :: [Ev.ret 4, Ev.ret 2])).g.exited = none ∧
      (serve_from (accepted initial (htonl 1 ++ [65]))
        (Ev.sigint :: [Ev.ret 4, Ev.ret 1, Ev.ret 4])).g.exited = some 0 :=
  ⟨(((deferred_shutdown (accepted initial (htonl 5 ++ [65, 66])) [Ev.ret 4, Ev.ret 2] []
      (Or.inl rfl) rfl rfl).2.1 (fun o => by cases o <;> decide)).2.2.2.1 (by decide)).1,
    ((deferred_shutdown (accepted initial (htonl 1 ++ [65])) [Ev.ret 4, Ev.ret 1, Ev.ret 4] []
      (Or.inl rfl) rfl rfl).2.2.1 ConnectionOutcome.Completed (by decide)).1⟩

/-- C5: with a file of five bytes and writes that accept one byte each, the payload loop
hands the stream the first byte, three times the second byte and the first byte again,
not the five bytes of the file: after a short write the next `write` starts at the offset
`bytes_sent` of the last write alone instead of the total sent so far. -/
theorem client_payload_short_writes :
    (client [1, 2, 3, 4, 5] [] (List.replicate 10 (Res.ret 1))).sock_out
        = htonl 5 ++ [1, 2, 2, 2, 1] ∧
      (client [1, 2, 3, 4, 5] [] (List.replicate 10 (Res.ret 1))).phase
        = CPhase.recv_count ∧
      (client [1, 2, 3, 4, 5] [] (List.replicate 10 (Res.ret 1))).sock_out
        ≠ htonl 5 ++ [1, 2, 3, 4, 5] := by
  decide

/-- C6: when the four bytes received are the big-endian encoding of `65536`, the client
prints `# of printable characters: 0` and exits with status `0`: the conversion `%hu`
prints the count modulo `2 ^ 16`. -/
theorem client_report_truncates :
    (client [] (htonl 65536) [Res.ret 4, Res.ret 4]).stdout
        = ["# of printable characters: 0\n"] ∧
      (client [] (htonl 65536) [Res.ret 4, Res.ret 4]).exited = some 0 := by
  decide

/-- C7: with `total_pcc['A'] = 65536`, `shutdown_server` prints 95 lines and exits with
status `0`, and its line for `'A'` is `char 'A' : 0 times`: the conversion `%hu` prints the
count modulo `2 ^ 16`. -/
theorem shutdown_report_truncates :
    (shutdown_server
        { initial with total_pcc := fun i => if i = 65 then 65536 else 0 }).stdout[33]?
        = some "char 'A' : 0 times\n" ∧
      (shutdown_server
        { initial with total_pcc := fun i => if i = 65 then 65536 else 0 }).stdout.length
        = 95 ∧
      (shutdown_server
        { initial with total_pcc := fun i => if i = 65 then 65536 else 0 }).exited
        = some 0 := by
  decide

/-- C8, as stated, fails: with `PROCESSING_CLIENT = 0` the handler prints the 95 lines of
the report and ends the process with status `0`. -/
theorem server_handler_idle_reports_and_exits :
    (server_handler initial).stdout.length = 95 ∧
      (server_handler initial).exited = some 0 ∧
      (server_handler initial).TERMINATE = 0 := by
  decide

/-- C8, amended: with a non-zero processing marker the handler prints nothing and does
not end the process; it sets `TERMINATE` to `1` and leaves `total_pcc`,
`PROCESSING_CLIENT`, the output and the exit status as they were. -/
theorem server_handler_while_processing (g : Globals) (h : g.PROCESSING_CLIENT ≠ 0) :
    server_handler g = { g with TERMINATE := 1 } ∧
      (server_handler g).stdout = g.stdout ∧
      (server_handler g).exited = g.exited ∧
      (server_handler g).TERMINATE = 1 ∧
      (server_handler g).total_pcc = g.total_pcc ∧
      (server_handler g).PROCESSING_CLIENT = g.PROCESSING_CLIENT := by
  have hh : server_handler g = { g with TERMINATE := 1 } := by
    unfold server_handler
    rw [if_neg h]
  rw [hh]
  exact ⟨rfl, rfl, rfl, rfl, rfl, rfl⟩

theorem server_handler_while_processing_witness :
    (server_handler { initial with PROCESSING_CLIENT := 1 }).exited = none :=
  (server_handler_while_processing { initial with PROCESSING_CLIENT := 1 }
    (by decide)).2.2.1

/-- A client in the receive loop whose inbound stream is exhausted is left as it is by a
`read`: the call returns `0` and the loop tests the same `bytes_received` again. -/
theorem client_step_recv_eof (s : Client) (k : Nat) (hp : s.phase = CPhase.recv_count)
    (hin : s.sock_in = []) (hr : s.bytes_received < 4) :
    client_step s (Res.ret k) = s := by
  obtain ⟨phase, file, fsz, sin, sout, fb, br, bs, tbs, brc, obj, out, ex⟩ := s
  simp only at hp hin hr
  subst hp hin
  simp [client_step, hr]

/-- C9: after the size of an empty file is sent, if the server closes the connection
without a reply then every `read` of the receive loop returns `0`, and after any number of
them the client is still in that loop with `bytes_received = 0` and has not exited. -/
theorem client_receive_spins (ks : List Nat) :
    (client [] [] (Res.ret 4 :: ks.map Res.ret)).phase = CPhase.recv_count ∧
      (client [] [] (Res.ret 4 :: ks.map Res.ret)).bytes_received = 0 ∧
      (client [] [] (Res.ret 4 :: ks.map Res.ret)).exited = none := by
  have hfix : ∀ js : List Nat,
      (js.map Res.ret).foldl client_step (client [] [] [Res.ret 4]) = client [] [] [Res.ret 4] := by
    intro js
    induction js with
    | nil => rfl
    | cons j js ih =>
      rw [List.map_cons, List.foldl_cons,
        client_step_recv_eof _ j (by decide) (by decide) (by decide)]
      exact ih
  have hrun : client [] [] (Res.ret 4 :: ks.map Res.ret) = client [] [] [Res.ret 4] := hfix ks
  rw [hrun]
  decide

/-- C10: with a declared length of `1` and a stream that holds two bytes after the header,
a `read` of the payload loop returns both: two bytes are read and counted, and the result
sent is `2`, larger than the declared length. -/
theorem server_payload_overreads :
    (serve initial (htonl 1 ++ [65, 66]) [Ev.ret 4, Ev.ret 2, Ev.ret 4]).file_size_host = 1 ∧
      (serve initial (htonl 1 ++ [65, 66]) [Ev.ret 4, Ev.ret 2, Ev.ret 4]).total_bytes_read
        = 2 ∧
      (serve initial (htonl 1 ++ [65, 66]) [Ev.ret 4, Ev.ret 2, Ev.ret 4]).sock_out
        = htonl 2 ∧
      (serve initial (htonl 1 ++ [65, 66]) [Ev.ret 4, Ev.ret 2, Ev.ret 4]).phase
        = Phase.closed ConnectionOutcome.Completed ∧
      (serve initial (htonl 1 ++ [65, 66]) [Ev.ret 4, Ev.ret 2, Ev.ret 4]).g.total_pcc 66
        = 1 := by
  decide

end PCC
